import Mathlib

/-!
Verification of the core of the `jellyfin-duplicate` repository.

Embedding conventions.

* A Go string is modelled as its sequence of runes (Unicode code points),
  `GoStr := List Char`.  Go's `len` on a string counts UTF-8 bytes; it is
  recovered as the sum of the UTF-8 sizes of the runes (`utf8Len`).
* Go slices become `List`, Go `map` values become association lists in which
  an insert replaces the value of an existing key in place (`insertReplace`)
  — Go maps have no observable ordering, and every property proved below is
  insensitive to the order chosen by the model.
* The concurrent fan-out/fan-in fetchers (`GetAllMovies`,
  `GetSeenMoviesForAllUsers`, goroutines plus channels in
  `client/jellyfin/http/httpClient.go`) are modelled as a sequential map over
  the fan-out list with the per-task network call abstracted as a function
  into `Except`; the error channel being non-empty after the join is exactly
  "some task returned an error", which the model reproduces.
* Error message strings are carried through opaquely.
-/

/-- A Go string, modelled as its sequence of runes (Unicode code points). -/
abbrev GoStr := List Char

/-- Go `len(s)` on a string: the number of UTF-8 bytes of `s`. -/
def utf8Len (s : GoStr) : Nat := (s.map Char.utf8Size).sum

/-- The variadic `min` helper of `utils/levenshtein.go` applied to the three
values of the inner loop: its loop computes `(a min b) min c`. -/
def min3 (a b c : Nat) : Nat := min (min a b) c

/-- The substitution cost computed in the inner loop of `LevenshteinDistance`
(`utils/levenshtein.go:34-37`): `0` when the two runes are equal, else `1`. -/
def subCost (a b : Char) : Nat := if a = b then 0 else 1

/-- The classic unit-cost edit distance (minimum number of insertions,
deletions and substitutions), as the spec describes it in §4.1, written as
the textbook structural recursion over the two rune sequences.  The dynamic
program of the source (`LevenshteinDistance`) is proved equal to it in
`LevenshteinDistance_eq_editDistance`. -/
def editDistance : List Char → List Char → Nat
  | [], ys => ys.length
  | xs, [] => xs.length
  | x :: xs, y :: ys =>
      min3 (editDistance xs (y :: ys) + 1)
        (editDistance (x :: xs) ys + 1)
        (editDistance xs ys + subCost x y)
termination_by xs ys => xs.length + ys.length

/-- Inner loop of the dynamic program of `LevenshteinDistance`
(`utils/levenshtein.go:32-45`): given the current rune `x` of the first
string, the entry `diag = distances[i-1][j-1]`, the entry
`left = distances[i][j-1]`, the remaining entries `distances[i-1][j..]` of
the previous row and the remaining runes of the second string, produce the
remaining entries `distances[i][j..]` of the current row. -/
def levStepAux (x : Char) : Nat → Nat → List Nat → List Char → List Nat
  | _, _, [], _ => []
  | _, _, _, [] => []
  | diag, left, p :: ps, y :: ys =>
      let v := min3 (p + 1) (left + 1) (diag + subCost x y)
      v :: levStepAux x p v ps ys

/-- One row step of the dynamic program: from row `i-1` of the distance
matrix to row `i`, whose first entry is `distances[i][0] = i =
distances[i-1][0] + 1` (`utils/levenshtein.go:24-26`). -/
def levStep (x : Char) (r2 : List Char) (prev : List Nat) : List Nat :=
  match prev with
  | [] => []
  | d0 :: ps => (d0 + 1) :: levStepAux x d0 (d0 + 1) ps r2

/-- `LevenshteinDistance` from `utils/levenshtein.go:9-48`: the full
Wagner–Fischer matrix over the runes of the two strings, built row by row
from the initial row `distances[0][j] = j`, returning
`distances[len1][len2]` (the last entry of the last row). -/
def LevenshteinDistance (s1 s2 : GoStr) : Nat :=
  (s1.foldl (fun row c => levStep c s2 row) (List.range (s2.length + 1))).getLastD 0

/-- The tail of the matrix row for the first-string prefix `u`, covering the
second-string prefixes `v ++ [y₁]`, `v ++ [y₁, y₂]`, … for the remaining
runes `y₁, y₂, …`.  Proof device for `LevenshteinDistance_eq_editDistance`. -/
def prefRow (u : List Char) (v : List Char) : List Char → List Nat
  | [] => []
  | y :: ys => editDistance u (v ++ [y]) :: prefRow u (v ++ [y]) ys

/-- The full matrix row for the first-string prefix `u` over all prefixes of
`r2`. -/
def fullRow (u r2 : List Char) : List Nat :=
  editDistance u [] :: prefRow u [] r2

/-- Rune position (not byte position) of the last occurrence of `c` in `s`,
or `none`.  Helper for modelling `strings.LastIndex`. -/
def lastRuneIdx : GoStr → Char → Option Nat
  | [], _ => none
  | a :: rest, c =>
      match lastRuneIdx rest c with
      | some k => some (k + 1)
      | none => if a = c then some 0 else none

/-- Go `strings.LastIndex(s, string(c))` for a one-byte (ASCII) needle such
as `"."` or `"/"`: the byte index of the last occurrence, or `-1`.  In UTF-8
an ASCII byte only ever occurs as a complete rune, so the last byte match is
the last rune match, and its byte index is the UTF-8 length of the runes
before it. -/
def stringsLastIndex (s : GoStr) (c : Char) : Int :=
  match lastRuneIdx s c with
  | none => -1
  | some k => (utf8Len (s.take k) : Int)

/-- Go string slicing `s[:n]` for a byte count `n`: keep leading runes while
their UTF-8 bytes fit in `n`.  (The source only slices at rune boundaries,
where this is exact.) -/
def takeBytes : GoStr → Int → GoStr
  | [], _ => []
  | a :: rest, n =>
      if (a.utf8Size : Int) ≤ n then a :: takeBytes rest (n - (a.utf8Size : Int)) else []

/-- `removeFileExtension` from `utils/levenshtein.go:78-98`: drop everything
from the last `.` onward, unless there is no `.`, the `.` is at byte index 0,
or a `/` occurs after the last `.`. -/
def removeFileExtension (path : GoStr) : GoStr :=
  if stringsLastIndex path '.' ≤ 0 then path
  else if stringsLastIndex path '/' > stringsLastIndex path '.' then path
  else takeBytes path (stringsLastIndex path '.')

/-- `CalculatePathSimilarity` from `utils/levenshtein.go:53-74`: strip the
extensions, run the Levenshtein dynamic program over runes, and normalise by
`maxLen`, where `maxLen` is Go `len` — the larger UTF-8 **byte** length of
the two stripped strings (not their rune count). -/
def CalculatePathSimilarity (path1 path2 : GoStr) : Int :=
  if max (utf8Len (removeFileExtension path1)) (utf8Len (removeFileExtension path2)) = 0
  then 100
  else (100 : Int) -
    (LevenshteinDistance (removeFileExtension path1) (removeFileExtension path2) * 100 /
      max (utf8Len (removeFileExtension path1)) (utf8Len (removeFileExtension path2)) : Nat)

/-- The similarity score exactly as the spec (§4.1) words it, for comparison
with the source's `CalculatePathSimilarity`: identical stripping and the
classic edit distance, but `maxLen` is "the longer of the two stripped
strings' code-point lengths". -/
def pathSimilaritySpec (path1 path2 : GoStr) : Int :=
  if max (removeFileExtension path1).length (removeFileExtension path2).length = 0
  then 100
  else (100 : Int) -
    (editDistance (removeFileExtension path1) (removeFileExtension path2) * 100 /
      max (removeFileExtension path1).length (removeFileExtension path2).length : Nat)

/-- `UserPlayStatus` from `client/jellyfin/models` (mirrored in
`internal/models/movie.go`). -/
structure UserPlayStatus where
  userID : GoStr
  userName : GoStr
  played : Bool
  playCount : Int
deriving DecidableEq

/-- `User` from the Jellyfin models: only the fields the core reads. -/
structure User where
  id : GoStr
  name : GoStr
deriving DecidableEq

/-- `Library` from the Jellyfin models: only the fields the core reads. -/
structure Library where
  id : GoStr
  name : GoStr
deriving DecidableEq

/-- `Movie` from the Jellyfin models: the fields the core reads
(`ID`, `Name`, `Path`, `ProductionYear`, `UserPlayStatuses`). -/
structure Movie where
  id : GoStr
  name : GoStr
  path : GoStr
  productionYear : Int
  userPlayStatuses : List UserPlayStatus
deriving DecidableEq

/-- `PlayStatusDiscrepancy` from the models. -/
structure PlayStatusDiscrepancy where
  userID : GoStr
  userName : GoStr
  movieToUpdate : GoStr
  movieName : GoStr
deriving DecidableEq

/-- `DuplicateResult`: the fields `FindDuplicates` populates. -/
structure DuplicateResult where
  movie1 : Movie
  movie2 : Movie
  isDuplicate : Bool
  similarity : Int
  hasIdenticalPlayStatus : Bool
deriving DecidableEq

/-- Go map lookup `mp[key]` on the association-list model of a map. -/
def lookupKey {β : Type} : List (GoStr × β) → GoStr → Option β
  | [], _ => none
  | (k, v) :: rest, key => if k = key then some v else lookupKey rest key

/-- Go map assignment `mp[k] = v`: replace the value of an existing key in
place, else add the binding. -/
def insertReplace {β : Type} : List (GoStr × β) → GoStr → β → List (GoStr × β)
  | [], k, v => [(k, v)]
  | (k', v') :: rest, k, v =>
      if k' = k then (k, v) :: rest else (k', v') :: insertReplace rest k v

/-- Go `movieMap[key] = append(movieMap[key], movie)` on a map of slices
(`server/service.go:62-70`). -/
def insertAppendGroup : List (GoStr × List Movie) → GoStr → Movie → List (GoStr × List Movie)
  | [], k, m => [(k, [m])]
  | (k', g) :: rest, k, m =>
      if k' = k then (k', g ++ [m]) :: rest else (k', g) :: insertAppendGroup rest k m

/-- Decimal digits of `n`, most significant first, as produced by Go's `%d`
for a non-negative value; the fuel argument (always `> n` at the call site)
keeps the recursion structural. -/
def natToCharsCore : Nat → Nat → List Char → List Char
  | 0, _, acc => acc
  | fuel + 1, n, acc =>
      if n < 10 then Char.ofNat (48 + n) :: acc
      else natToCharsCore fuel (n / 10) (Char.ofNat (48 + n % 10) :: acc)

/-- Decimal rendering of a natural number (`"0"`, `"1"`, …). -/
def natToChars (n : Nat) : List Char := natToCharsCore (n + 1) n []

/-- Go `fmt.Sprintf("%d", i)` for an `int`: a minus sign followed by the
digits when negative, else just the digits. -/
def fmtInt (i : Int) : List Char :=
  if i < 0 then '-' :: natToChars (-i).toNat else natToChars i.toNat

/-- Decimal value of a digit string, used to show that `natToChars` is
injective. -/
def charsVal (l : List Char) : Nat :=
  l.foldl (fun a c => 10 * a + (c.toNat - 48)) 0

/-- The grouping key `fmt.Sprintf("%s-%d", movie.Name, movie.ProductionYear)`
of `server/service.go:67`. -/
def movieKey (movie : Movie) : GoStr :=
  movie.name ++ '-' :: fmtInt movie.productionYear

/-- The `userID -> played` Go map built by `HasIdenticalPlayStatus`
(`server/service.go:109-119`); a later entry for the same user overwrites an
earlier one, as in a Go map. -/
def buildStatusMap (l : List UserPlayStatus) : List (GoStr × Bool) :=
  l.foldl (fun mp st => insertReplace mp st.userID st.played) []

/-- `HasIdenticalPlayStatus` from `server/service.go:102-135`. -/
def HasIdenticalPlayStatus (movie1 movie2 : Movie) : Bool :=
  if movie1.userPlayStatuses.length = 0 ∨ movie2.userPlayStatuses.length = 0 then false
  else if (buildStatusMap movie1.userPlayStatuses).length ≠
      (buildStatusMap movie2.userPlayStatuses).length then false
  else (buildStatusMap movie1.userPlayStatuses).all fun kv =>
    match lookupKey (buildStatusMap movie2.userPlayStatuses) kv.1 with
    | some played2 => kv.2 == played2
    | none => false

/-- The `movieNSeenBy` Go set (map to `true`) of
`server/service.go:173-186`: the IDs of users with a played entry. -/
def seenByMap (l : List UserPlayStatus) : List GoStr :=
  l.filterMap fun st => if st.played then some st.userID else none

/-- `GetPlayStatusDiscrepancies` from `server/service.go:169-213`: for each
played entry of one movie whose user is not in the other movie's seen set,
emit a record naming the other movie as the one to update. -/
def GetPlayStatusDiscrepancies (movie1 movie2 : Movie) : List PlayStatusDiscrepancy :=
  (movie1.userPlayStatuses.filterMap fun st =>
    if st.played ∧ st.userID ∉ seenByMap movie2.userPlayStatuses then
      some ⟨st.userID, st.userName, movie2.id, movie2.name⟩
    else none) ++
  (movie2.userPlayStatuses.filterMap fun st =>
    if st.played ∧ st.userID ∉ seenByMap movie1.userPlayStatuses then
      some ⟨st.userID, st.userName, movie1.id, movie1.name⟩
    else none)

/-- Append one play-state entry to a movie, as the reconciler's
`movie.UserPlayStatuses = append(movie.UserPlayStatuses, playStatus)`. -/
def appendStatus (m : Movie) (st : UserPlayStatus) : Movie :=
  { m with userPlayStatuses := m.userPlayStatuses ++ [st] }

/-- One user iteration of `ReconcilePlayStatusWithAllMovies`
(`httpClient.go:471-515`): when the user is missing from the seen-movies map
every movie gets a `played=false` entry, otherwise each movie keyed `movieID`
gets an entry with `played = seenMovieIDs[movieID]`; `PlayCount` is left at
its zero value in every branch. -/
def markUser (userSeenMovies : List (GoStr × List Movie)) (user : User)
    (movieMap : List (GoStr × Movie)) : List (GoStr × Movie) :=
  match lookupKey userSeenMovies user.id with
  | none =>
      movieMap.map fun kv => (kv.1, appendStatus kv.2 ⟨user.id, user.name, false, 0⟩)
  | some seenMovies =>
      movieMap.map fun kv =>
        (kv.1, appendStatus kv.2 ⟨user.id, user.name, decide (kv.1 ∈ seenMovies.map Movie.id), 0⟩)

/-- `ReconcilePlayStatusWithAllMovies` from `httpClient.go:463-524`: index
the movies by ID (later duplicates of an ID overwrite earlier ones), attach
one play-state entry per user to every indexed movie, and return the map's
values.  (The Go function also returns an always-`nil` error, elided.) -/
def ReconcilePlayStatusWithAllMovies (allMovies : List Movie)
    (userSeenMovies : List (GoStr × List Movie)) (users : List User) : List Movie :=
  (users.foldl (fun mp user => markUser userSeenMovies user mp)
    (allMovies.foldl (fun mp movie => insertReplace mp movie.id movie) [])).map Prod.snd

/-- The play-state entry the reconciler attaches for `user` to the movie
keyed `movieID`: `played` is true exactly when the user's seen-set contains
that ID, and a user absent from the seen-movies map counts as having seen
nothing. -/
def statusFor (userSeenMovies : List (GoStr × List Movie)) (user : User)
    (movieID : GoStr) : UserPlayStatus :=
  match lookupKey userSeenMovies user.id with
  | none => ⟨user.id, user.name, false, 0⟩
  | some seenMovies => ⟨user.id, user.name, decide (movieID ∈ seenMovies.map Movie.id), 0⟩

/-- All index pairs `i < j` of a group, in loop order
(`server/service.go:77-78`). -/
def pairUp : List Movie → List (Movie × Movie)
  | [] => []
  | m :: rest => (rest.map fun m2 => (m, m2)) ++ pairUp rest

/-- The `DuplicateResult` built for one pair at `server/service.go:79-91`:
`isDuplicate := similarity >= 95` with the fixed threshold. -/
def mkDuplicateResult (m1 m2 : Movie) : DuplicateResult :=
  { movie1 := m1, movie2 := m2,
    isDuplicate := decide (95 ≤ CalculatePathSimilarity m1.path m2.path),
    similarity := CalculatePathSimilarity m1.path m2.path,
    hasIdenticalPlayStatus := HasIdenticalPlayStatus m1 m2 }

/-- The in-memory core of `FindDuplicates` (`server/service.go:57-98`),
taking the reconciled movie list as input: group by `movieKey`, and for each
group with more than one member evaluate every unordered pair. -/
def FindDuplicates (movies : List Movie) : List DuplicateResult :=
  ((movies.foldl (fun mp movie => insertAppendGroup mp (movieKey movie) movie) []).filter
    fun kv => 1 < kv.2.length).flatMap
    fun kv => (pairUp kv.2).map fun p => mkDuplicateResult p.1 p.2

/-- `GetAllMovies` from `httpClient.go:32-98` with the two network calls
abstracted: fail fast if the library listing failed; fetch each library's
movies (concurrently in Go — order-insensitively here); if the error channel
is non-empty after the join, return an error and no movie list, else the
concatenation. -/
def GetAllMovies (getLibraries : Except GoStr (List Library))
    (getMoviesFromLibrary : Library → Except GoStr (List Movie)) :
    Except GoStr (List Movie) :=
  match getLibraries with
  | .error e => .error e
  | .ok libraries =>
      if (libraries.filterMap fun lib =>
            match getMoviesFromLibrary lib with
            | .error e => some e
            | .ok _ => none) = [] then
        .ok ((libraries.filterMap fun lib =>
          match getMoviesFromLibrary lib with
          | .ok ms => some ms
          | .error _ => none).flatten)
      else
        .error ((libraries.filterMap fun lib =>
          match getMoviesFromLibrary lib with
          | .error e => some e
          | .ok _ => none).flatten)

/-- `GetSeenMoviesForAllUsers` from `httpClient.go:268-312` with the
per-user network call abstracted: fan out over the users, collect
`userID -> seen movies` into a map; if any fetch failed, return an error and
no map. -/
def GetSeenMoviesForAllUsers (getSeenMoviesForUser : GoStr → Except GoStr (List Movie))
    (users : List User) : Except GoStr (List (GoStr × List Movie)) :=
  if (users.filterMap fun u =>
        match getSeenMoviesForUser u.id with
        | .error e => some e
        | .ok _ => none) = [] then
    .ok (users.filterMap fun u =>
      match getSeenMoviesForUser u.id with
      | .ok ms => some (u.id, ms)
      | .error _ => none)
  else
    .error ((users.filterMap fun u =>
      match getSeenMoviesForUser u.id with
      | .error e => some e
      | .ok _ => none).flatten)

/-- The loop body of `GetPlayStatusForAllUsers` (`server/service.go:146-164`):
fetch the play status of both movies of the pair for one user; if either
lookup fails, `continue` — skip the user, appending to neither movie;
otherwise append one entry to each movie. -/
def playStep (getUserPlayStatus : GoStr → GoStr → Except GoStr UserPlayStatus)
    (d : DuplicateResult) (user : User) : DuplicateResult :=
  match getUserPlayStatus d.movie1.id user.id with
  | .error _ => d
  | .ok status1 =>
      match getUserPlayStatus d.movie2.id user.id with
      | .error _ => d
      | .ok status2 =>
          { d with movie1 := appendStatus d.movie1 status1,
                   movie2 := appendStatus d.movie2 status2 }

/-- `GetPlayStatusForAllUsers` from `server/service.go:138-167` with the two
network calls abstracted.  Mirrors the Go return shape `(dup, error)`: a
failed user-list fetch returns the pair unchanged together with the error,
otherwise the loop runs over all users and no error is ever returned. -/
def GetPlayStatusForAllUsers (getAllUsers : Except GoStr (List User))
    (getUserPlayStatus : GoStr → GoStr → Except GoStr UserPlayStatus)
    (dup : DuplicateResult) : DuplicateResult × Option GoStr :=
  match getAllUsers with
  | .error e => (dup, some e)
  | .ok users => (users.foldl (playStep getUserPlayStatus) dup, none)

/-- The entry appended to the first movie of the pair for `user` by the
enrichment loop, when both of the user's lookups succeed; `none` when either
fails (the user is skipped). -/
def keptStatus1 (f : GoStr → GoStr → Except GoStr UserPlayStatus)
    (m1id m2id : GoStr) (user : User) : Option UserPlayStatus :=
  match f m1id user.id, f m2id user.id with
  | .ok st1, .ok _ => some st1
  | _, _ => none

/-- The entry appended to the second movie of the pair for `user` by the
enrichment loop, when both of the user's lookups succeed. -/
def keptStatus2 (f : GoStr → GoStr → Except GoStr UserPlayStatus)
    (m1id m2id : GoStr) (user : User) : Option UserPlayStatus :=
  match f m1id user.id, f m2id user.id with
  | .ok _, .ok st2 => some st2
  | _, _ => none

/-- The full play-state entry of `l` for user ID `u` (first match, unique
when the list has at most one entry per user). -/
def findStatus (l : List UserPlayStatus) (u : GoStr) : Option UserPlayStatus :=
  l.find? fun st => decide (st.userID = u)

/-- The played flag `l` assigns to user ID `u`, if any. -/
def lookupPlayed (l : List UserPlayStatus) (u : GoStr) : Option Bool :=
  (l.find? fun st => decide (st.userID = u)).map UserPlayStatus.played

theorem min3_add (a b c k : Nat) : min3 a b c + k = min3 (a + k) (b + k) (c + k) := by
  unfold min3; omega

theorem min3_transpose (a b c d e f g h i : Nat) :
    min3 (min3 a b c) (min3 d e f) (min3 g h i) = min3 (min3 a d g) (min3 b e h) (min3 c f i) := by
  unfold min3
  ac_rfl

theorem min3_exchange (A B C D E F G H I c cp : Nat) :
    min3 (min3 (A + 1) (B + 1) (C + c) + 1) (min3 (D + 1) (E + 1) (F + c) + 1)
      (min3 (G + 1) (H + 1) (I + c) + cp) =
    min3 (min3 (A + 1) (D + 1) (G + cp) + 1) (min3 (B + 1) (E + 1) (H + cp) + 1)
      (min3 (C + 1) (F + 1) (I + cp) + c) := by
  simp only [min3_add]
  rw [min3_transpose]
  simp [Nat.add_comm, Nat.add_left_comm, Nat.add_assoc]

theorem subCost_le_one (a b : Char) : subCost a b ≤ 1 := by
  unfold subCost; split <;> omega

theorem subCost_comm (a b : Char) : subCost a b = subCost b a := by
  unfold subCost
  by_cases h : a = b
  · simp [h]
  · rw [if_neg h, if_neg (fun hba => h hba.symm)]

theorem editDistance_nil_left (ys : List Char) : editDistance [] ys = ys.length := by
  cases ys <;> simp [editDistance]

theorem editDistance_nil_right (xs : List Char) : editDistance xs [] = xs.length := by
  cases xs <;> simp [editDistance]

theorem editDistance_cons_cons (x y : Char) (xs ys : List Char) :
    editDistance (x :: xs) (y :: ys) =
      min3 (editDistance xs (y :: ys) + 1) (editDistance (x :: xs) ys + 1)
        (editDistance xs ys + subCost x y) := by
  simp [editDistance]

/-- The Wagner–Fischer recurrence also holds when a rune is appended at the
end of each string: this is what lets the row-by-row dynamic program (which
extends prefixes on the right) compute the structurally recursive
`editDistance` (which peels runes off on the left). -/
theorem editDistance_snoc (x y : Char) : ∀ (xs ys : List Char),
    editDistance (xs ++ [x]) (ys ++ [y]) =
      min3 (editDistance xs (ys ++ [y]) + 1) (editDistance (xs ++ [x]) ys + 1)
        (editDistance xs ys + subCost x y)
  | [], [] => by
      simp [editDistance, min3]
  | [], y' :: ys => by
      have ih := editDistance_snoc x y [] ys
      have c1 := subCost_le_one x y'
      have c2 := subCost_le_one x y
      simp only [List.nil_append] at ih
      simp only [List.nil_append, List.cons_append]
      rw [editDistance_cons_cons x y' [] (ys ++ [y]), editDistance_cons_cons x y' [] ys, ih]
      simp only [editDistance_nil_left, editDistance_nil_right, List.length_append,
        List.length_cons, List.length_nil, List.length_singleton]
      simp only [min3]
      omega
  | x' :: xs, [] => by
      have ih := editDistance_snoc x y xs []
      have c1 := subCost_le_one x' y
      have c2 := subCost_le_one x y
      simp only [List.nil_append] at ih
      simp only [List.nil_append, List.cons_append]
      rw [editDistance_cons_cons x' y (xs ++ [x]) [], editDistance_cons_cons x' y xs [], ih]
      simp only [editDistance_nil_left, editDistance_nil_right, List.length_append,
        List.length_cons, List.length_nil, List.length_singleton]
      simp only [min3]
      omega
  | x' :: xs, y' :: ys => by
      have ih1 := editDistance_snoc x y xs (y' :: ys)
      have ih2 := editDistance_snoc x y (x' :: xs) ys
      have ih3 := editDistance_snoc x y xs ys
      simp only [List.cons_append] at ih1 ih2 ⊢
      rw [editDistance_cons_cons x' y' (xs ++ [x]) (ys ++ [y]),
        editDistance_cons_cons x' y' xs (ys ++ [y]),
        editDistance_cons_cons x' y' (xs ++ [x]) ys,
        editDistance_cons_cons x' y' xs ys, ih1, ih2, ih3]
      exact min3_exchange _ _ _ _ _ _ _ _ _ _ _
termination_by xs ys => xs.length + ys.length

/-- The unit-cost edit distance is symmetric in its two arguments. -/
theorem editDistance_comm : ∀ (xs ys : List Char), editDistance xs ys = editDistance ys xs
  | [], ys => by rw [editDistance_nil_left, editDistance_nil_right]
  | x :: xs, [] => by rw [editDistance_nil_left, editDistance_nil_right]
  | x :: xs, y :: ys => by
      have ih1 := editDistance_comm xs (y :: ys)
      have ih2 := editDistance_comm (x :: xs) ys
      have ih3 := editDistance_comm xs ys
      rw [editDistance_cons_cons, editDistance_cons_cons]
      rw [ih1, ih2, ih3, subCost_comm]
      simp only [min3]
      omega
termination_by xs ys => xs.length + ys.length

theorem levStepAux_spec (u : List Char) (x : Char) : ∀ (ys v : List Char),
    levStepAux x (editDistance u v) (editDistance (u ++ [x]) v) (prefRow u v ys) ys =
      prefRow (u ++ [x]) v ys
  | [], v => by simp [prefRow, levStepAux]
  | y :: ys, v => by
      simp only [prefRow, levStepAux, List.cons.injEq]
      refine ⟨?_, ?_⟩
      · rw [editDistance_snoc]
      · rw [show min3 (editDistance u (v ++ [y]) + 1) (editDistance (u ++ [x]) v + 1)
              (editDistance u v + subCost x y) = editDistance (u ++ [x]) (v ++ [y]) from
            (editDistance_snoc x y u v).symm]
        exact levStepAux_spec u x ys (v ++ [y])

theorem levStep_spec (u r2 : List Char) (x : Char) :
    levStep x r2 (fullRow u r2) = fullRow (u ++ [x]) r2 := by
  simp only [fullRow, levStep, List.cons.injEq]
  have h : editDistance u [] + 1 = editDistance (u ++ [x]) [] := by
    rw [editDistance_nil_right, editDistance_nil_right, List.length_append,
      List.length_singleton]
  refine ⟨h, ?_⟩
  rw [h]
  exact levStepAux_spec u x r2 []

theorem prefRow_nil_left : ∀ (ys v : List Char),
    prefRow [] v ys = List.range' (v.length + 1) ys.length
  | [], v => by simp [prefRow]
  | y :: ys, v => by
      simp only [prefRow, List.length_cons, List.range'_succ, List.cons.injEq]
      refine ⟨?_, ?_⟩
      · rw [editDistance_nil_left, List.length_append, List.length_singleton]
      · have := prefRow_nil_left ys (v ++ [y])
        simpa [List.length_append] using this

theorem fullRow_nil : ∀ (r2 : List Char), fullRow [] r2 = List.range (r2.length + 1) := by
  intro r2
  simp only [fullRow, editDistance_nil_left, List.length_nil]
  rw [prefRow_nil_left r2 [], List.range_eq_range']
  simp [List.range'_succ]

theorem foldl_levStep (r2 : List Char) : ∀ (l u : List Char),
    l.foldl (fun row c => levStep c r2 row) (fullRow u r2) = fullRow (u ++ l) r2
  | [], u => by simp
  | x :: l, u => by
      simp only [List.foldl_cons]
      rw [levStep_spec u r2 x, foldl_levStep r2 l (u ++ [x])]
      simp

theorem prefRow_getLastD : ∀ (ys v u : List Char),
    (prefRow u v ys).getLastD (editDistance u v) = editDistance u (v ++ ys)
  | [], v, u => by simp [prefRow]
  | y :: ys, v, u => by
      simp only [prefRow]
      rw [List.getLastD_cons, prefRow_getLastD ys (v ++ [y]) u]
      simp

/-- The dynamic program of `utils/levenshtein.go` computes the classic
unit-cost edit distance over runes. -/
theorem LevenshteinDistance_eq_editDistance (s1 s2 : GoStr) :
    LevenshteinDistance s1 s2 = editDistance s1 s2 := by
  unfold LevenshteinDistance
  rw [← fullRow_nil s2, foldl_levStep s2 s1 [], List.nil_append]
  simp only [fullRow]
  rw [List.getLastD_cons, prefRow_getLastD s2 [] s1]
  simp

theorem LevenshteinDistance_comm (s1 s2 : GoStr) :
    LevenshteinDistance s1 s2 = LevenshteinDistance s2 s1 := by
  rw [LevenshteinDistance_eq_editDistance, LevenshteinDistance_eq_editDistance,
    editDistance_comm]

theorem utf8Len_eq_zero_iff (s : GoStr) : utf8Len s = 0 ↔ s = [] := by
  cases s with
  | nil => simp [utf8Len]
  | cons c t =>
      have := Char.utf8Size_pos c
      simp only [utf8Len, List.map_cons, List.sum_cons]
      apply iff_of_false
      · omega
      · simp

/-- Claim C1 (counterexample).  The claim computes `maxLen` as the larger
code-point length of the two stripped strings (`pathSimilaritySpec`), but the
source computes it as the larger UTF-8 byte length: on the pair
`("café", "")` the source returns 20 (distance 4, maxLen 5 bytes) while the
claimed formula yields 0 (distance 4, maxLen 4 code points). -/
theorem C1_counterexample :
    CalculatePathSimilarity ['c', 'a', 'f', 'é'] [] = 20 ∧
    pathSimilaritySpec ['c', 'a', 'f', 'é'] [] = 0 := by
  constructor
  · decide
  · unfold pathSimilaritySpec
    rw [show removeFileExtension ['c', 'a', 'f', 'é'] = ['c', 'a', 'f', 'é'] from rfl]
    rw [show removeFileExtension ([] : GoStr) = [] from rfl]
    rw [editDistance_nil_right]
    norm_num

/-- Claim C1 (amended).  `CalculatePathSimilarity` first strips the trailing
extension from each path, then equals `100 - floor(d * 100 / maxLen)` where
`d` is the unit-cost Levenshtein distance over whole Unicode code points of
the stripped strings and `maxLen` is the larger of the two stripped strings'
UTF-8 **byte** lengths (Go `len`), not their code-point lengths; when both
stripped strings are empty the score is 100. -/
theorem C1_similarity_formula (path1 path2 : GoStr) :
    CalculatePathSimilarity path1 path2 =
      if removeFileExtension path1 = [] ∧ removeFileExtension path2 = [] then 100
      else (100 : Int) -
        (editDistance (removeFileExtension path1) (removeFileExtension path2) * 100 /
          max (utf8Len (removeFileExtension path1)) (utf8Len (removeFileExtension path2)) : Nat) := by
  unfold CalculatePathSimilarity
  rw [LevenshteinDistance_eq_editDistance]
  by_cases hc : removeFileExtension path1 = [] ∧ removeFileExtension path2 = []
  · have h0 : max (utf8Len (removeFileExtension path1)) (utf8Len (removeFileExtension path2)) = 0 := by
      rw [Nat.max_eq_zero_iff, utf8Len_eq_zero_iff, utf8Len_eq_zero_iff]
      exact hc
    rw [if_pos h0, if_pos hc]
  · have h0 : ¬ max (utf8Len (removeFileExtension path1)) (utf8Len (removeFileExtension path2)) = 0 := by
      rw [Nat.max_eq_zero_iff, utf8Len_eq_zero_iff, utf8Len_eq_zero_iff]
      exact hc
    rw [if_neg h0, if_neg hc]

/-- Claim C8.  `CalculatePathSimilarity` is a pure Lean function (hence
deterministic), and it is commutative: swapping the two paths leaves the
score unchanged. -/
theorem C8_similarity_comm (path1 path2 : GoStr) :
    CalculatePathSimilarity path1 path2 = CalculatePathSimilarity path2 path1 := by
  unfold CalculatePathSimilarity
  rw [Nat.max_comm, LevenshteinDistance_comm]

theorem pairUp_mem : ∀ (g : List Movie) (p : Movie × Movie), p ∈ pairUp g → p.1 ∈ g ∧ p.2 ∈ g
  | [], p, hp => by simp [pairUp] at hp
  | m :: rest, p, hp => by
      simp only [pairUp, List.mem_append, List.mem_map] at hp
      rcases hp with ⟨m2, hm2, rfl⟩ | hp
      · exact ⟨by simp, by simp [hm2]⟩
      · have := pairUp_mem rest p hp
        exact ⟨List.mem_cons_of_mem m this.1, List.mem_cons_of_mem m this.2⟩

theorem FindDuplicates_mem (movies : List Movie) (r : DuplicateResult)
    (hr : r ∈ FindDuplicates movies) :
    ∃ kv ∈ (movies.foldl (fun mp movie => insertAppendGroup mp (movieKey movie) movie) []),
      1 < kv.2.length ∧ ∃ p ∈ pairUp kv.2, r = mkDuplicateResult p.1 p.2 := by
  unfold FindDuplicates at hr
  simp only [List.mem_flatMap, List.mem_filter, List.mem_map, decide_eq_true_eq] at hr
  obtain ⟨kv, ⟨hkv, hlen⟩, p, hp, hr⟩ := hr
  exact ⟨kv, hkv, hlen, p, hp, hr.symm⟩

/-- Claim C7.  Every `DuplicateResult` produced by `FindDuplicates` has
`isDuplicate = true` exactly when its similarity is at least 95; in
particular similarity 95 is classified as a duplicate and 94 is not. -/
theorem C7_duplicate_threshold (movies : List Movie) (r : DuplicateResult)
    (hr : r ∈ FindDuplicates movies) : r.isDuplicate = true ↔ 95 ≤ r.similarity := by
  obtain ⟨kv, _, _, p, _, rfl⟩ := FindDuplicates_mem movies r hr
  simp [mkDuplicateResult]

theorem natToCharsCore_eq (n : Nat) : ∀ (fuel : Nat) (acc : List Char), n < fuel →
    natToCharsCore fuel n acc =
      (if n < 10 then [Char.ofNat (48 + n)]
       else natToChars (n / 10) ++ [Char.ofNat (48 + n % 10)]) ++ acc := by
  induction n using Nat.strong_induction_on with
  | _ n ih =>
    intro fuel acc hlt
    cases fuel with
    | zero => exact absurd hlt (by omega)
    | succ f =>
      by_cases h10 : n < 10
      · simp [natToCharsCore, h10]
      · have hdiv : n / 10 < n := Nat.div_lt_self (by omega) (by omega)
        simp only [natToCharsCore, if_neg h10]
        rw [ih (n / 10) hdiv f (Char.ofNat (48 + n % 10) :: acc) (by omega)]
        have hrw : natToChars (n / 10) =
            if n / 10 < 10 then [Char.ofNat (48 + n / 10)]
            else natToChars (n / 10 / 10) ++ [Char.ofNat (48 + n / 10 % 10)] := by
          have h := ih (n / 10) hdiv (n / 10 + 1) [] (Nat.lt_succ_self _)
          rw [show natToChars (n / 10) = natToCharsCore (n / 10 + 1) (n / 10) [] from rfl, h,
            List.append_nil]
        rw [← hrw]
        simp

theorem natToChars_lt (n : Nat) (h : n < 10) : natToChars n = [Char.ofNat (48 + n)] := by
  unfold natToChars
  rw [natToCharsCore_eq n (n + 1) [] (Nat.lt_succ_self n), if_pos h, List.append_nil]

theorem natToChars_ge (n : Nat) (h : 10 ≤ n) :
    natToChars n = natToChars (n / 10) ++ [Char.ofNat (48 + n % 10)] := by
  rw [show natToChars n = natToCharsCore (n + 1) n [] from rfl,
    natToCharsCore_eq n (n + 1) [] (Nat.lt_succ_self n), if_neg (by omega), List.append_nil]

theorem digit_val (d : Nat) (h : d < 10) : (Char.ofNat (48 + d)).toNat = 48 + d := by
  interval_cases d <;> decide

theorem digit_ne_dash (d : Nat) (h : d < 10) : Char.ofNat (48 + d) ≠ '-' := by
  interval_cases d <;> decide

theorem dash_not_mem_natToChars (n : Nat) : '-' ∉ natToChars n := by
  induction n using Nat.strong_induction_on with
  | _ n ih =>
    by_cases h10 : n < 10
    · rw [natToChars_lt n h10]
      simp only [List.mem_singleton]
      exact (digit_ne_dash n h10).symm
    · rw [natToChars_ge n (by omega)]
      simp only [List.mem_append, List.mem_singleton]
      push_neg
      exact ⟨ih (n / 10) (Nat.div_lt_self (by omega) (by omega)),
        (digit_ne_dash (n % 10) (Nat.mod_lt n (by omega))).symm⟩

theorem charsVal_append (l : List Char) (c : Char) :
    charsVal (l ++ [c]) = 10 * charsVal l + (c.toNat - 48) := by
  unfold charsVal
  rw [List.foldl_append]
  simp

theorem charsVal_natToChars (n : Nat) : charsVal (natToChars n) = n := by
  induction n using Nat.strong_induction_on with
  | _ n ih =>
    by_cases h10 : n < 10
    · rw [natToChars_lt n h10]
      unfold charsVal
      simp only [List.foldl_cons, List.foldl_nil, digit_val n h10]
      omega
    · rw [natToChars_ge n (by omega), charsVal_append,
        ih (n / 10) (Nat.div_lt_self (by omega) (by omega)),
        digit_val (n % 10) (Nat.mod_lt n (by omega))]
      omega

theorem append_dash_inj (b d : List Char) (hb : '-' ∉ b) (hd : '-' ∉ d) :
    ∀ (a c : List Char), a ++ '-' :: b = c ++ '-' :: d → a = c ∧ b = d
  | [], [] => by
      intro h
      simpa using h
  | [], x :: c => by
      intro h
      simp only [List.nil_append, List.cons_append, List.cons.injEq] at h
      exact absurd (h.2 ▸ (by simp : '-' ∈ c ++ '-' :: d)) hb
  | x :: a, [] => by
      intro h
      simp only [List.nil_append, List.cons_append, List.cons.injEq] at h
      exact absurd (h.2 ▸ (by simp : '-' ∈ a ++ '-' :: b)) hd
  | x :: a, y :: c => by
      intro h
      simp only [List.cons_append, List.cons.injEq] at h
      obtain ⟨rfl, h2⟩ := h
      have := append_dash_inj b d hb hd a c h2
      exact ⟨by rw [this.1], this.2⟩

theorem movieKey_inj_nonneg (m1 m2 : Movie) (h1 : 0 ≤ m1.productionYear)
    (h2 : 0 ≤ m2.productionYear) (hk : movieKey m1 = movieKey m2) :
    m1.name = m2.name ∧ m1.productionYear = m2.productionYear := by
  unfold movieKey fmtInt at hk
  rw [if_neg (by omega), if_neg (by omega)] at hk
  have := append_dash_inj _ _ (dash_not_mem_natToChars m1.productionYear.toNat)
    (dash_not_mem_natToChars m2.productionYear.toNat) _ _ hk
  refine ⟨this.1, ?_⟩
  have hv := congrArg charsVal this.2
  rw [charsVal_natToChars, charsVal_natToChars] at hv
  omega

theorem insertAppendGroup_pres (P : GoStr → Movie → Prop) (k : GoStr) (m : Movie)
    (hm : P k m) :
    ∀ (mp : List (GoStr × List Movie)),
      (∀ kv ∈ mp, ∀ mv ∈ kv.2, P kv.1 mv) →
      ∀ kv ∈ insertAppendGroup mp k m, ∀ mv ∈ kv.2, P kv.1 mv
  | [], hmp => by
      intro kv hkv mv hmv
      simp only [insertAppendGroup, List.mem_singleton] at hkv
      subst hkv
      simp only [List.mem_singleton] at hmv
      subst hmv
      exact hm
  | (k', g) :: rest, hmp => by
      intro kv hkv mv hmv
      simp only [insertAppendGroup] at hkv
      by_cases he : k' = k
      · rw [if_pos he] at hkv
        rcases List.mem_cons.mp hkv with rfl | hkv
        · rcases List.mem_append.mp hmv with hg | hs
          · exact hmp (k', g) (by simp) mv hg
          · simp only [List.mem_singleton] at hs
            subst hs
            subst he
            exact hm
        · exact hmp kv (List.mem_cons_of_mem _ hkv) mv hmv
      · rw [if_neg he] at hkv
        rcases List.mem_cons.mp hkv with rfl | hkv
        · exact hmp (k', g) (by simp) mv hmv
        · exact insertAppendGroup_pres P k m hm rest
            (fun kv h => hmp kv (List.mem_cons_of_mem _ h)) kv hkv mv hmv

theorem groupFold_pres (P : GoStr → Movie → Prop) :
    ∀ (l : List Movie) (mp : List (GoStr × List Movie)),
      (∀ mv ∈ l, P (movieKey mv) mv) →
      (∀ kv ∈ mp, ∀ mv ∈ kv.2, P kv.1 mv) →
      ∀ kv ∈ l.foldl (fun mp movie => insertAppendGroup mp (movieKey movie) movie) mp,
        ∀ mv ∈ kv.2, P kv.1 mv
  | [], mp, hl, hmp => by simpa using hmp
  | movie :: l, mp, hl, hmp => by
      simp only [List.foldl_cons]
      exact groupFold_pres P l _ (fun mv h => hl mv (List.mem_cons_of_mem _ h))
        (insertAppendGroup_pres P (movieKey movie) movie (hl movie (by simp)) mp hmp)

/-- Claim C3 (counterexample).  With a negative production year the
concatenated key `name + "-" + year` is not injective: `("a", -5)` and
`("a-", 5)` both map to the key `"a--5"`, are grouped together, and produce a
`DuplicateResult` whose two movies have different names and years. -/
theorem C3_counterexample :
    ∃ r ∈ FindDuplicates
      [⟨['1'], ['a'], [], -5, []⟩, ⟨['2'], ['a', '-'], [], 5, []⟩],
      ¬(r.movie1.name = r.movie2.name ∧ r.movie1.productionYear = r.movie2.productionYear) := by
  decide

/-- Claim C3 (amended).  Any two movies placed together in a single
`DuplicateResult` by `FindDuplicates` have equal `name + "-" + year` key
strings; provided all production years are non-negative (as real release
years are) this forces equal name strings and equal production years, so
movies whose (name, productionYear) keys differ never appear in the same
verdict. -/
theorem C3_group_exactness (movies : List Movie)
    (hY : ∀ m ∈ movies, 0 ≤ m.productionYear) (r : DuplicateResult)
    (hr : r ∈ FindDuplicates movies) :
    r.movie1.name = r.movie2.name ∧ r.movie1.productionYear = r.movie2.productionYear := by
  obtain ⟨kv, hkv, hlen, p, hp, rfl⟩ := FindDuplicates_mem movies r hr
  have hinv := groupFold_pres (fun k mv => movieKey mv = k ∧ mv ∈ movies) movies []
    (fun mv h => ⟨rfl, h⟩) (by simp) kv hkv
  have hmem := pairUp_mem kv.2 p hp
  have i1 := hinv p.1 hmem.1
  have i2 := hinv p.2 hmem.2
  have hkeys : movieKey p.1 = movieKey p.2 := by rw [i1.1, i2.1]
  have := movieKey_inj_nonneg p.1 p.2 (hY p.1 i1.2) (hY p.2 i2.2) hkeys
  simpa [mkDuplicateResult] using this

/-- Concrete instantiation of `C3_group_exactness` on a two-movie catalog
with year 0 and identical paths. -/
theorem C3_group_exactness_witness :
    (mkDuplicateResult ⟨['1'], ['a'], ['p'], 0, []⟩ ⟨['2'], ['a'], ['p'], 0, []⟩).movie1.name =
      (mkDuplicateResult ⟨['1'], ['a'], ['p'], 0, []⟩ ⟨['2'], ['a'], ['p'], 0, []⟩).movie2.name ∧
    (mkDuplicateResult ⟨['1'], ['a'], ['p'], 0, []⟩
        ⟨['2'], ['a'], ['p'], 0, []⟩).movie1.productionYear =
      (mkDuplicateResult ⟨['1'], ['a'], ['p'], 0, []⟩
        ⟨['2'], ['a'], ['p'], 0, []⟩).movie2.productionYear :=
  C3_group_exactness [⟨['1'], ['a'], ['p'], 0, []⟩, ⟨['2'], ['a'], ['p'], 0, []⟩]
    (by decide) _ (by decide)

/-- Concrete instantiation of `C7_duplicate_threshold`: the identical-path
pair scores 100 and is classified as a duplicate. -/
theorem C7_duplicate_threshold_witness :
    (mkDuplicateResult ⟨['1'], ['b'], ['q'], 0, []⟩
        ⟨['2'], ['b'], ['q'], 0, []⟩).isDuplicate = true ↔
      95 ≤ (mkDuplicateResult ⟨['1'], ['b'], ['q'], 0, []⟩
        ⟨['2'], ['b'], ['q'], 0, []⟩).similarity :=
  C7_duplicate_threshold [⟨['1'], ['b'], ['q'], 0, []⟩, ⟨['2'], ['b'], ['q'], 0, []⟩] _
    (by decide)

theorem GetAllMovies_ok (getMoviesFromLibrary : Library → Except GoStr (List Movie))
    (libraries : List Library) :
    GetAllMovies (.ok libraries) getMoviesFromLibrary =
      if (libraries.filterMap fun lib =>
            match getMoviesFromLibrary lib with
            | .error e => some e
            | .ok _ => none) = [] then
        .ok ((libraries.filterMap fun lib =>
          match getMoviesFromLibrary lib with
          | .ok ms => some ms
          | .error _ => none).flatten)
      else
        .error ((libraries.filterMap fun lib =>
          match getMoviesFromLibrary lib with
          | .error e => some e
          | .ok _ => none).flatten) := rfl

/-- Claim C5.  If fetching any single library's movies fails, `GetAllMovies`
returns an error and no movie list; if fetching the seen-set of any single
user fails, `GetSeenMoviesForAllUsers` returns an error and no map.  In the
`Except` model the error constructor carries no collection, so completed
sibling results are discarded. -/
theorem C5_no_partial_results :
    (∀ (getLibraries : Except GoStr (List Library))
       (getMoviesFromLibrary : Library → Except GoStr (List Movie))
       (libraries : List Library) (lib : Library) (e : GoStr),
       getLibraries = .ok libraries → lib ∈ libraries →
       getMoviesFromLibrary lib = .error e →
       ∃ msg, GetAllMovies getLibraries getMoviesFromLibrary = .error msg) ∧
    (∀ (getSeenMoviesForUser : GoStr → Except GoStr (List Movie))
       (users : List User) (u : User) (e : GoStr),
       u ∈ users → getSeenMoviesForUser u.id = .error e →
       ∃ msg, GetSeenMoviesForAllUsers getSeenMoviesForUser users = .error msg) := by
  constructor
  · intro gl gf libs lib e hgl hmem herr
    subst hgl
    rw [GetAllMovies_ok]
    have he : e ∈ libs.filterMap fun lib =>
        match gf lib with
        | .error e => some e
        | .ok _ => none := by
      refine List.mem_filterMap.mpr ⟨lib, hmem, ?_⟩
      rw [herr]
    rw [if_neg (List.ne_nil_of_mem he)]
    exact ⟨_, rfl⟩
  · intro gf users u e hmem herr
    unfold GetSeenMoviesForAllUsers
    have he : e ∈ users.filterMap fun u =>
        match gf u.id with
        | .error e => some e
        | .ok _ => none := by
      refine List.mem_filterMap.mpr ⟨u, hmem, ?_⟩
      rw [herr]
    rw [if_neg (List.ne_nil_of_mem he)]
    exact ⟨_, rfl⟩

/-- Concrete instantiation of `C5_no_partial_results`: a one-library catalog
whose fetch fails, and a one-user aggregation whose fetch fails. -/
theorem C5_no_partial_results_witness :
    (∃ msg, GetAllMovies (.ok [⟨['L'], ['L']⟩]) (fun _ => .error ['x']) = .error msg) ∧
    (∃ msg, GetSeenMoviesForAllUsers (fun _ => .error ['y']) [⟨['u'], ['u']⟩] = .error msg) :=
  ⟨C5_no_partial_results.1 (.ok [⟨['L'], ['L']⟩]) (fun _ => .error ['x'])
      [⟨['L'], ['L']⟩] ⟨['L'], ['L']⟩ ['x'] rfl (by decide) rfl,
    C5_no_partial_results.2 (fun _ => .error ['y']) [⟨['u'], ['u']⟩] ⟨['u'], ['u']⟩ ['y']
      (by decide) rfl⟩

theorem playFold_spec (f : GoStr → GoStr → Except GoStr UserPlayStatus)
    (m1id m2id : GoStr) :
    ∀ (users : List User) (d : DuplicateResult),
      d.movie1.id = m1id → d.movie2.id = m2id →
      (users.foldl (playStep f) d).movie1.id = m1id ∧
      (users.foldl (playStep f) d).movie2.id = m2id ∧
      (users.foldl (playStep f) d).movie1.userPlayStatuses =
        d.movie1.userPlayStatuses ++ users.filterMap (keptStatus1 f m1id m2id) ∧
      (users.foldl (playStep f) d).movie2.userPlayStatuses =
        d.movie2.userPlayStatuses ++ users.filterMap (keptStatus2 f m1id m2id)
  | [], d, hid1, hid2 => by simp [hid1, hid2]
  | user :: users, d, hid1, hid2 => by
      cases h1 : f m1id user.id with
      | error e1 =>
          have hd : playStep f d user = d := by
            unfold playStep
            rw [hid1, h1]
          have hk1 : keptStatus1 f m1id m2id user = none := by
            unfold keptStatus1
            rw [h1]
          have hk2 : keptStatus2 f m1id m2id user = none := by
            unfold keptStatus2
            rw [h1]
          have ih := playFold_spec f m1id m2id users d hid1 hid2
          simp only [List.foldl_cons, List.filterMap_cons, hd, hk1, hk2]
          exact ih
      | ok st1 =>
          cases h2 : f m2id user.id with
          | error e2 =>
              have hd : playStep f d user = d := by
                unfold playStep
                rw [hid1, h1, hid2, h2]
              have hk1 : keptStatus1 f m1id m2id user = none := by
                unfold keptStatus1
                rw [h1, h2]
              have hk2 : keptStatus2 f m1id m2id user = none := by
                unfold keptStatus2
                rw [h1, h2]
              have ih := playFold_spec f m1id m2id users d hid1 hid2
              simp only [List.foldl_cons, List.filterMap_cons, hd, hk1, hk2]
              exact ih
          | ok st2 =>
              have hd : playStep f d user =
                  { d with movie1 := appendStatus d.movie1 st1,
                           movie2 := appendStatus d.movie2 st2 } := by
                unfold playStep
                rw [hid1, h1, hid2, h2]
              have hk1 : keptStatus1 f m1id m2id user = some st1 := by
                unfold keptStatus1
                rw [h1, h2]
              have hk2 : keptStatus2 f m1id m2id user = some st2 := by
                unfold keptStatus2
                rw [h1, h2]
              have ih := playFold_spec f m1id m2id users
                { d with movie1 := appendStatus d.movie1 st1,
                         movie2 := appendStatus d.movie2 st2 }
                (by simp [appendStatus, hid1]) (by simp [appendStatus, hid2])
              simp only [List.foldl_cons, List.filterMap_cons, hd, hk1, hk2]
              refine ⟨ih.1, ih.2.1, ?_, ?_⟩
              · rw [ih.2.2.1]
                simp [appendStatus, List.append_assoc]
              · rw [ih.2.2.2]
                simp [appendStatus, List.append_assoc]

theorem filterMap_length_congr {α β γ : Type} (f : α → Option β) (g : α → Option γ)
    (h : ∀ a, (f a).isSome = (g a).isSome) :
    ∀ l : List α, (l.filterMap f).length = (l.filterMap g).length
  | [] => rfl
  | a :: l => by
      have ha := h a
      have ih := filterMap_length_congr f g h l
      cases hf : f a <;> cases hg : g a <;>
        simp [hf, hg, List.filterMap_cons] at ha ⊢ <;> omega

/-- Claim C10.  `GetPlayStatusForAllUsers` returns an error exactly when the
initial user-list fetch fails; when it succeeds, each movie of the pair
receives exactly the entries of the users for which **both** per-user
lookups succeeded (a failed lookup for either movie skips that user for both
movies), so the two movies receive the same number of appended entries. -/
theorem C10_enrichment_errors
    (getAllUsers : Except GoStr (List User))
    (getUserPlayStatus : GoStr → GoStr → Except GoStr UserPlayStatus)
    (dup : DuplicateResult) :
    ((GetPlayStatusForAllUsers getAllUsers getUserPlayStatus dup).2 = none ↔
      ∃ users, getAllUsers = .ok users) ∧
    (∀ users, getAllUsers = .ok users →
      (GetPlayStatusForAllUsers getAllUsers getUserPlayStatus dup).1.movie1.userPlayStatuses =
        dup.movie1.userPlayStatuses ++
          users.filterMap (keptStatus1 getUserPlayStatus dup.movie1.id dup.movie2.id) ∧
      (GetPlayStatusForAllUsers getAllUsers getUserPlayStatus dup).1.movie2.userPlayStatuses =
        dup.movie2.userPlayStatuses ++
          users.filterMap (keptStatus2 getUserPlayStatus dup.movie1.id dup.movie2.id) ∧
      (users.filterMap (keptStatus1 getUserPlayStatus dup.movie1.id dup.movie2.id)).length =
        (users.filterMap (keptStatus2 getUserPlayStatus dup.movie1.id dup.movie2.id)).length) := by
  constructor
  · cases getAllUsers with
    | error e => simp [GetPlayStatusForAllUsers]
    | ok users => simp [GetPlayStatusForAllUsers]
  · intro users husers
    subst husers
    have hfold := playFold_spec getUserPlayStatus dup.movie1.id dup.movie2.id users dup rfl rfl
    refine ⟨hfold.2.2.1, hfold.2.2.2, ?_⟩
    apply filterMap_length_congr
    intro user
    unfold keptStatus1 keptStatus2
    cases getUserPlayStatus dup.movie1.id user.id <;>
      cases getUserPlayStatus dup.movie2.id user.id <;> rfl

/-- Concrete instantiation of `C10_enrichment_errors`: a successful user
fetch yields no error. -/
theorem C10_enrichment_errors_witness :
    (GetPlayStatusForAllUsers (.ok [⟨['u'], ['u']⟩])
        (fun _ _ => .ok ⟨['u'], ['u'], true, 0⟩)
        (mkDuplicateResult ⟨['1'], ['b'], ['q'], 0, []⟩ ⟨['2'], ['b'], ['q'], 0, []⟩)).2 =
      none ↔
    ∃ users, (Except.ok [⟨['u'], ['u']⟩] : Except GoStr (List User)) = .ok users :=
  (C10_enrichment_errors (.ok [⟨['u'], ['u']⟩]) (fun _ _ => .ok ⟨['u'], ['u'], true, 0⟩)
    (mkDuplicateResult ⟨['1'], ['b'], ['q'], 0, []⟩ ⟨['2'], ['b'], ['q'], 0, []⟩)).1

theorem insertReplace_absent {β : Type} (k : GoStr) (v : β) :
    ∀ (mp : List (GoStr × β)), k ∉ mp.map Prod.fst → insertReplace mp k v = mp ++ [(k, v)]
  | [], _ => rfl
  | (k', v') :: rest, h => by
      simp only [List.map_cons, List.mem_cons] at h
      push_neg at h
      simp only [insertReplace]
      rw [if_neg (fun he => h.1 he.symm)]
      simp only [List.cons_append, List.cons.injEq]
      exact ⟨trivial, insertReplace_absent k v rest h.2⟩

theorem insertReplace_keys_mem {β : Type} (k : GoStr) (v : β) :
    ∀ (mp : List (GoStr × β)), k ∈ mp.map Prod.fst →
      (insertReplace mp k v).map Prod.fst = mp.map Prod.fst
  | [], h => by simp at h
  | (k', v') :: rest, h => by
      simp only [insertReplace]
      by_cases he : k' = k
      · rw [if_pos he]
        simp [he]
      · rw [if_neg he]
        simp only [List.map_cons, List.cons.injEq]
        refine ⟨trivial, ?_⟩
        apply insertReplace_keys_mem k v rest
        simp only [List.map_cons, List.mem_cons] at h
        rcases h with h | h
        · exact absurd h.symm he
        · exact h

theorem insertReplace_keys_not_mem {β : Type} (k : GoStr) (v : β) :
    ∀ (mp : List (GoStr × β)), k ∉ mp.map Prod.fst →
      (insertReplace mp k v).map Prod.fst = mp.map Prod.fst ++ [k]
  | [], _ => rfl
  | (k', v') :: rest, h => by
      simp only [List.map_cons, List.mem_cons] at h
      push_neg at h
      simp only [insertReplace]
      rw [if_neg (fun he => h.1 he.symm)]
      simp only [List.map_cons, List.cons_append, List.cons.injEq]
      exact ⟨trivial, insertReplace_keys_not_mem k v rest h.2⟩

theorem insertReplace_keys_nodup {β : Type} (k : GoStr) (v : β)
    (mp : List (GoStr × β)) (h : (mp.map Prod.fst).Nodup) :
    ((insertReplace mp k v).map Prod.fst).Nodup := by
  by_cases hm : k ∈ mp.map Prod.fst
  · rw [insertReplace_keys_mem k v mp hm]
    exact h
  · rw [insertReplace_keys_not_mem k v mp hm]
    rw [List.nodup_append]
    refine ⟨h, List.nodup_singleton k, ?_⟩
    intro a ha hak
    simp only [List.mem_singleton] at hak
    subst hak
    exact hm ha

theorem lookupKey_insertReplace {β : Type} (k : GoStr) (v : β) :
    ∀ (mp : List (GoStr × β)) (key : GoStr),
      lookupKey (insertReplace mp k v) key = if key = k then some v else lookupKey mp key
  | [], key => by
      simp only [insertReplace, lookupKey]
      by_cases h : key = k
      · rw [if_pos h.symm, if_pos h]
      · rw [if_neg (fun hh => h hh.symm), if_neg h]
  | (k', v') :: rest, key => by
      simp only [insertReplace]
      by_cases he : k' = k
      · subst he
        rw [if_pos rfl]
        simp only [lookupKey]
        by_cases h : key = k'
        · rw [if_pos h.symm, if_pos h]
        · rw [if_neg (fun hh => h hh.symm), if_neg h, if_neg (fun hh => h hh.symm)]
      · rw [if_neg he]
        simp only [lookupKey]
        by_cases h : k' = key
        · have hk : ¬ key = k := fun hh => he (h.trans hh)
          rw [if_pos h, if_neg hk, if_pos h]
        · rw [if_neg h, lookupKey_insertReplace k v rest key]
          by_cases hk : key = k
          · rw [if_pos hk, if_pos hk]
          · rw [if_neg hk, if_neg hk, if_neg h]

theorem lookupKey_eq_none {β : Type} :
    ∀ (mp : List (GoStr × β)) (k : GoStr), lookupKey mp k = none ↔ k ∉ mp.map Prod.fst
  | [], k => by
      constructor
      · intro _
        simp
      · intro _
        rfl
  | (k', v') :: rest, k => by
      simp only [lookupKey, List.map_cons, List.mem_cons]
      by_cases h : k' = k
      · rw [if_pos h]
        apply iff_of_false
        · intro hx
          exact Option.noConfusion hx
        · intro hc
          exact hc (Or.inl h.symm)
      · rw [if_neg h]
        rw [lookupKey_eq_none rest k]
        constructor
        · intro hn hc
          rcases hc with hc | hc
          · exact h hc.symm
          · exact hn hc
        · intro hn hc
          exact hn (Or.inr hc)

theorem lookupKey_mem {β : Type} :
    ∀ (mp : List (GoStr × β)) (k : GoStr) (v : β), lookupKey mp k = some v → (k, v) ∈ mp
  | [], k, v => by simp [lookupKey]
  | (k', v') :: rest, k, v => by
      simp only [lookupKey]
      by_cases h : k' = k
      · rw [if_pos h]
        intro hv
        simp only [Option.some.injEq] at hv
        subst hv
        subst h
        exact List.mem_cons_self _ _
      · rw [if_neg h]
        intro hv
        exact List.mem_cons_of_mem _ (lookupKey_mem rest k v hv)

theorem mem_lookupKey_of_nodup {β : Type} :
    ∀ (mp : List (GoStr × β)), (mp.map Prod.fst).Nodup →
      ∀ (k : GoStr) (v : β), (k, v) ∈ mp → lookupKey mp k = some v
  | [], _, k, v, h => by simp at h
  | (k', v') :: rest, hn, k, v, h => by
      simp only [List.map_cons, List.nodup_cons] at hn
      rcases List.mem_cons.mp h with heq | hmem
      · injection heq with h1 h2
        simp only [lookupKey]
        rw [if_pos h1.symm, h2]
      · have hk : k ∈ rest.map Prod.fst := List.mem_map.mpr ⟨(k, v), hmem, rfl⟩
        have hne : k' ≠ k := fun he => hn.1 (he ▸ hk)
        simp only [lookupKey]
        rw [if_neg hne]
        exact mem_lookupKey_of_nodup rest hn.2 k v hmem

theorem foldl_insertReplace_disjoint :
    ∀ (l : List UserPlayStatus) (acc : List (GoStr × Bool)),
      (l.map UserPlayStatus.userID).Nodup →
      (∀ st ∈ l, st.userID ∉ acc.map Prod.fst) →
      l.foldl (fun mp st => insertReplace mp st.userID st.played) acc =
        acc ++ l.map fun st => (st.userID, st.played)
  | [], acc, _, _ => by simp
  | st :: l, acc, hn, hd => by
      simp only [List.foldl_cons, List.map_cons]
      simp only [List.map_cons, List.nodup_cons] at hn
      rw [insertReplace_absent st.userID st.played acc (hd st (by simp))]
      rw [foldl_insertReplace_disjoint l (acc ++ [(st.userID, st.played)]) hn.2 ?hfresh]
      · simp
      case hfresh =>
        intro st' hst'
        simp only [List.map_append, List.map_cons, List.map_nil, List.mem_append,
          List.mem_singleton]
        push_neg
        refine ⟨hd st' (List.mem_cons_of_mem _ hst'), ?_⟩
        intro he
        exact hn.1 (he ▸ List.mem_map.mpr ⟨st', hst', rfl⟩)

theorem buildStatusMap_eq (l : List UserPlayStatus)
    (h : (l.map UserPlayStatus.userID).Nodup) :
    buildStatusMap l = l.map fun st => (st.userID, st.played) := by
  unfold buildStatusMap
  rw [foldl_insertReplace_disjoint l [] h (by simp)]
  simp

theorem lookupKey_pairs (l : List UserPlayStatus) (u : GoStr) :
    lookupKey (l.map fun st => (st.userID, st.played)) u = lookupPlayed l u := by
  induction l with
  | nil => rfl
  | cons st l ih =>
      simp only [List.map_cons, lookupKey, lookupPlayed]
      by_cases h : st.userID = u
      · rw [if_pos h, List.find?_cons_of_pos _ (by simp [h])]
        rfl
      · rw [if_neg h, List.find?_cons_of_neg _ (by simp [h])]
        exact ih

theorem lookupPlayed_isSome (l : List UserPlayStatus) (u : GoStr) :
    (lookupPlayed l u).isSome = true ↔ u ∈ l.map UserPlayStatus.userID := by
  unfold lookupPlayed
  rw [show ∀ o : Option UserPlayStatus, (o.map UserPlayStatus.played).isSome = o.isSome from
    fun o => by cases o <;> rfl]
  rw [List.find?_isSome]
  simp only [decide_eq_true_eq, List.mem_map]

theorem keys_set_eq_of_subset_len (K1 K2 : List GoStr) (hn1 : K1.Nodup) (hn2 : K2.Nodup)
    (hlen : K1.length = K2.length) (hsub : ∀ u ∈ K1, u ∈ K2) : ∀ u, u ∈ K1 ↔ u ∈ K2 := by
  have hfin : K1.toFinset ⊆ K2.toFinset := by
    intro u hu
    rw [List.mem_toFinset] at hu ⊢
    exact hsub u hu
  have hcard : K2.toFinset.card ≤ K1.toFinset.card := by
    rw [List.toFinset_card_of_nodup hn1, List.toFinset_card_of_nodup hn2, hlen]
  have heq : K1.toFinset = K2.toFinset := Finset.eq_of_subset_of_card_le hfin hcard
  intro u
  rw [← List.mem_toFinset, ← List.mem_toFinset (l := K2), heq]

theorem pairs_keys (l : List UserPlayStatus) :
    ((l.map fun st => (st.userID, st.played)).map Prod.fst) = l.map UserPlayStatus.userID := by
  rw [List.map_map]
  rfl

/-- Claim C4.  For movies whose play-state lists contain at most one entry
per user ID, `HasIdenticalPlayStatus` returns `false` when either list is
empty, and otherwise returns `true` exactly when the two lists mention the
same set of user IDs and assign every user the same played flag — stated as
equality of the per-user lookup functions. -/
theorem C4_identical_play_status (movie1 movie2 : Movie)
    (h1 : (movie1.userPlayStatuses.map UserPlayStatus.userID).Nodup)
    (h2 : (movie2.userPlayStatuses.map UserPlayStatus.userID).Nodup) :
    HasIdenticalPlayStatus movie1 movie2 = true ↔
      (movie1.userPlayStatuses ≠ [] ∧ movie2.userPlayStatuses ≠ [] ∧
       ∀ u : GoStr,
         lookupPlayed movie1.userPlayStatuses u = lookupPlayed movie2.userPlayStatuses u) := by
  unfold HasIdenticalPlayStatus
  by_cases e0 : movie1.userPlayStatuses.length = 0 ∨ movie2.userPlayStatuses.length = 0
  · rw [if_pos e0]
    apply iff_of_false (by simp)
    intro hc
    obtain ⟨hne1, hne2, _⟩ := hc
    rcases e0 with e0 | e0
    · exact hne1 (List.length_eq_zero.mp e0)
    · exact hne2 (List.length_eq_zero.mp e0)
  · rw [if_neg e0]
    push_neg at e0
    rw [buildStatusMap_eq _ h1, buildStatusMap_eq _ h2]
    by_cases elen : movie1.userPlayStatuses.length = movie2.userPlayStatuses.length
    · rw [if_neg (by simp [List.length_map, elen])]
      rw [List.all_eq_true]
      constructor
      · intro hall
        refine ⟨fun hnil => e0.1 (by simp [hnil]), fun hnil => e0.2 (by simp [hnil]), ?_⟩
        have hsub : ∀ w ∈ movie1.userPlayStatuses.map UserPlayStatus.userID,
            w ∈ movie2.userPlayStatuses.map UserPlayStatus.userID := by
          intro w hw
          rw [← lookupPlayed_isSome] at hw
          cases hcw : lookupPlayed movie1.userPlayStatuses w with
          | none => rw [hcw] at hw; simp at hw
          | some pw =>
              have hkw : lookupKey
                  (movie1.userPlayStatuses.map fun st => (st.userID, st.played)) w = some pw := by
                rw [lookupKey_pairs]
                exact hcw
              have hthis := hall (w, pw) (lookupKey_mem _ w pw hkw)
              dsimp only at hthis
              cases hcw2 : lookupKey
                  (movie2.userPlayStatuses.map fun st => (st.userID, st.played)) w with
              | none => rw [hcw2] at hthis; simp at hthis
              | some pw2 =>
                  have hs : (lookupPlayed movie2.userPlayStatuses w).isSome = true := by
                    rw [← lookupKey_pairs, hcw2]
                    rfl
                  rw [lookupPlayed_isSome] at hs
                  exact hs
        intro u
        cases hc1 : lookupPlayed movie1.userPlayStatuses u with
        | some p =>
            have hk : lookupKey
                (movie1.userPlayStatuses.map fun st => (st.userID, st.played)) u = some p := by
              rw [lookupKey_pairs]
              exact hc1
            have hthis := hall (u, p) (lookupKey_mem _ u p hk)
            dsimp only at hthis
            cases hc2 : lookupKey
                (movie2.userPlayStatuses.map fun st => (st.userID, st.played)) u with
            | some p2 =>
                rw [hc2] at hthis
                simp only [beq_iff_eq] at hthis
                rw [lookupKey_pairs] at hc2
                rw [hc2, hthis]
            | none =>
                rw [hc2] at hthis
                simp at hthis
        | none =>
            cases hc2 : lookupPlayed movie2.userPlayStatuses u with
            | none => rfl
            | some q =>
                exfalso
                have hu2 : u ∈ movie2.userPlayStatuses.map UserPlayStatus.userID := by
                  rw [← lookupPlayed_isSome, hc2]
                  rfl
                have hiff := keys_set_eq_of_subset_len _ _ h1 h2
                  (by simpa using elen) hsub
                have hu1 := (hiff u).mpr hu2
                rw [← lookupPlayed_isSome, hc1] at hu1
                simp at hu1
      · intro hc kv hkv
        obtain ⟨_, _, hall⟩ := hc
        obtain ⟨st, hst, rfl⟩ := List.mem_map.mp hkv
        have hl1 : lookupPlayed movie1.userPlayStatuses st.userID = some st.played := by
          rw [← lookupKey_pairs]
          apply mem_lookupKey_of_nodup _ ?hnd
          · exact List.mem_map.mpr ⟨st, hst, rfl⟩
          case hnd =>
            rw [pairs_keys]
            exact h1
        have hl2 : lookupPlayed movie2.userPlayStatuses st.userID = some st.played := by
          rw [← hall]
          exact hl1
        dsimp only
        rw [lookupKey_pairs, hl2]
        simp
    · rw [if_pos (by simpa [List.length_map] using elen)]
      apply iff_of_false (by simp)
      intro hc
      obtain ⟨hne1, hne2, hall⟩ := hc
      apply elen
      have hs1 : ∀ w ∈ movie1.userPlayStatuses.map UserPlayStatus.userID,
          w ∈ movie2.userPlayStatuses.map UserPlayStatus.userID := by
        intro w hw
        rw [← lookupPlayed_isSome] at hw ⊢
        rw [← hall w]
        exact hw
      have hs2 : ∀ w ∈ movie2.userPlayStatuses.map UserPlayStatus.userID,
          w ∈ movie1.userPlayStatuses.map UserPlayStatus.userID := by
        intro w hw
        rw [← lookupPlayed_isSome] at hw ⊢
        rw [hall w]
        exact hw
      have hfs : (movie1.userPlayStatuses.map UserPlayStatus.userID).toFinset =
          (movie2.userPlayStatuses.map UserPlayStatus.userID).toFinset := by
        ext w
        simp only [List.mem_toFinset]
        exact ⟨hs1 w, hs2 w⟩
      have hcard := congrArg Finset.card hfs
      rw [List.toFinset_card_of_nodup h1, List.toFinset_card_of_nodup h2] at hcard
      simpa using hcard

/-- Concrete instantiation of `C4_identical_play_status`: two movies with
the same single played entry are reported identical. -/
theorem C4_identical_play_status_witness :
    HasIdenticalPlayStatus ⟨['1'], ['a'], ['p'], 0, [⟨['u'], ['u'], true, 0⟩]⟩
      ⟨['2'], ['a'], ['p'], 0, [⟨['u'], ['u'], true, 0⟩]⟩ = true :=
  (C4_identical_play_status ⟨['1'], ['a'], ['p'], 0, [⟨['u'], ['u'], true, 0⟩]⟩
      ⟨['2'], ['a'], ['p'], 0, [⟨['u'], ['u'], true, 0⟩]⟩ (by decide) (by decide)).mpr
    ⟨by decide, by decide, fun u => rfl⟩

theorem mem_insertReplace {β : Type} (k : GoStr) (v : β) :
    ∀ (mp : List (GoStr × β)), ∀ p ∈ insertReplace mp k v, p = (k, v) ∨ p ∈ mp
  | [], p, hp => by
      simp only [insertReplace, List.mem_singleton] at hp
      exact Or.inl hp
  | (k', v') :: rest, p, hp => by
      simp only [insertReplace] at hp
      by_cases he : k' = k
      · rw [if_pos he] at hp
        rcases List.mem_cons.mp hp with rfl | hp
        · exact Or.inl rfl
        · exact Or.inr (List.mem_cons_of_mem _ hp)
      · rw [if_neg he] at hp
        rcases List.mem_cons.mp hp with rfl | hp
        · exact Or.inr (List.mem_cons_self _ _)
        · rcases mem_insertReplace k v rest p hp with h | h
          · exact Or.inl h
          · exact Or.inr (List.mem_cons_of_mem _ h)

theorem insertReplace_keys_mem_iff {β : Type} (k : GoStr) (v : β)
    (mp : List (GoStr × β)) (i : GoStr) :
    i ∈ (insertReplace mp k v).map Prod.fst ↔ i ∈ mp.map Prod.fst ∨ i = k := by
  by_cases hm : k ∈ mp.map Prod.fst
  · rw [insertReplace_keys_mem k v mp hm]
    constructor
    · exact Or.inl
    · rintro (h | rfl)
      · exact h
      · exact hm
  · rw [insertReplace_keys_not_mem k v mp hm]
    rw [List.mem_append, List.mem_singleton]

theorem movieFold_pres (P : GoStr × Movie → Prop) :
    ∀ (l : List Movie) (mp : List (GoStr × Movie)),
      (∀ m ∈ l, P (m.id, m)) →
      (∀ kv ∈ mp, P kv) →
      ∀ kv ∈ l.foldl (fun mp movie => insertReplace mp movie.id movie) mp, P kv
  | [], mp, _, hmp => hmp
  | m :: l, mp, hl, hmp => by
      simp only [List.foldl_cons]
      apply movieFold_pres P l _ (fun m' h => hl m' (List.mem_cons_of_mem _ h))
      intro kv hkv
      rcases mem_insertReplace m.id m mp kv hkv with rfl | h
      · exact hl m (by simp)
      · exact hmp kv h

theorem movieFold_keys_nodup :
    ∀ (l : List Movie) (mp : List (GoStr × Movie)),
      (mp.map Prod.fst).Nodup →
      ((l.foldl (fun mp movie => insertReplace mp movie.id movie) mp).map Prod.fst).Nodup
  | [], mp, h => by simpa using h
  | m :: l, mp, h => by
      simp only [List.foldl_cons]
      exact movieFold_keys_nodup l _ (insertReplace_keys_nodup m.id m mp h)

theorem movieFold_keys_mem :
    ∀ (l : List Movie) (mp : List (GoStr × Movie)) (i : GoStr),
      i ∈ (l.foldl (fun mp movie => insertReplace mp movie.id movie) mp).map Prod.fst ↔
        i ∈ mp.map Prod.fst ∨ i ∈ l.map Movie.id
  | [], mp, i => by
      constructor
      · exact Or.inl
      · rintro (h | h)
        · exact h
        · rw [List.map_nil] at h
          exact absurd h (List.not_mem_nil i)
  | m :: l, mp, i => by
      simp only [List.foldl_cons, List.map_cons, List.mem_cons]
      rw [movieFold_keys_mem l _ i, insertReplace_keys_mem_iff]
      tauto

theorem movieFold_lookup :
    ∀ (l : List Movie) (mp : List (GoStr × Movie)) (i : GoStr),
      lookupKey (l.foldl (fun mp movie => insertReplace mp movie.id movie) mp) i =
        match l.reverse.find? (fun m => decide (m.id = i)) with
        | some m => some m
        | none => lookupKey mp i
  | [], mp, i => by simp
  | m :: l, mp, i => by
      simp only [List.foldl_cons, List.reverse_cons]
      rw [movieFold_lookup l _ i, List.find?_append]
      cases hf : l.reverse.find? (fun m => decide (m.id = i)) with
      | some m' => rfl
      | none =>
          simp only [Option.none_or]
          rw [lookupKey_insertReplace]
          by_cases hm : m.id = i
          · rw [List.find?_cons_of_pos _ (by simp [hm]), if_pos hm.symm]
          · rw [List.find?_cons_of_neg _ (by simp [hm]), if_neg (fun he => hm he.symm)]
            rfl

theorem markUser_eq (userSeenMovies : List (GoStr × List Movie)) (user : User)
    (movieMap : List (GoStr × Movie)) :
    markUser userSeenMovies user movieMap =
      movieMap.map fun kv => (kv.1, appendStatus kv.2 (statusFor userSeenMovies user kv.1)) := by
  unfold markUser statusFor
  cases lookupKey userSeenMovies user.id <;> rfl

theorem foldl_markUser (userSeenMovies : List (GoStr × List Movie)) :
    ∀ (users : List User) (mp : List (GoStr × Movie)),
      users.foldl (fun mp user => markUser userSeenMovies user mp) mp =
        mp.map fun kv => (kv.1,
          { kv.2 with userPlayStatuses :=
              kv.2.userPlayStatuses ++ users.map fun u => statusFor userSeenMovies u kv.1 })
  | [], mp => by
      rw [show (fun kv : GoStr × Movie => (kv.1,
            { kv.2 with userPlayStatuses :=
                kv.2.userPlayStatuses ++ ([].map fun u => statusFor userSeenMovies u kv.1) })) =
          id from funext fun kv => by
            rw [List.map_nil, List.append_nil]
            rfl]
      rw [List.map_id]
      rfl
  | user :: users, mp => by
      simp only [List.foldl_cons, List.map_cons]
      rw [markUser_eq, foldl_markUser userSeenMovies users _, List.map_map]
      apply List.map_congr_left
      intro kv _
      simp only [Function.comp_apply, appendStatus]
      rw [List.append_assoc]
      rfl

theorem statusFor_userID (userSeenMovies : List (GoStr × List Movie)) (u : User)
    (key : GoStr) : (statusFor userSeenMovies u key).userID = u.id := by
  unfold statusFor
  cases lookupKey userSeenMovies u.id <;> rfl

theorem filter_map_statusFor (userSeenMovies : List (GoStr × List Movie)) (key : GoStr) :
    ∀ (users : List User), (users.map User.id).Nodup → ∀ user ∈ users,
      ((users.map fun u => statusFor userSeenMovies u key).filter
        fun st => decide (st.userID = user.id)) = [statusFor userSeenMovies user key]
  | [], _, user, hu => absurd hu (List.not_mem_nil user)
  | u0 :: users, hn, user, hu => by
      simp only [List.map_cons, List.filter_cons]
      simp only [List.map_cons, List.nodup_cons] at hn
      rcases List.mem_cons.mp hu with rfl | hu
      · rw [if_pos (by rw [statusFor_userID]; simp)]
        have htail : ((users.map fun u => statusFor userSeenMovies u key).filter
            fun st => decide (st.userID = user.id)) = [] := by
          rw [List.filter_eq_nil_iff]
          intro st hst
          obtain ⟨u', hu', rfl⟩ := List.mem_map.mp hst
          rw [statusFor_userID]
          simp only [decide_eq_true_eq]
          intro he
          exact hn.1 (he ▸ List.mem_map.mpr ⟨u', hu', rfl⟩)
        rw [htail]
      · have hne : u0.id ≠ user.id := fun he =>
          hn.1 (he ▸ List.mem_map.mpr ⟨user, hu, rfl⟩)
        rw [if_neg (by rw [statusFor_userID]; simpa using hne)]
        exact filter_map_statusFor userSeenMovies key users hn.2 user hu

/-- Claim C2.  Provided the input user list has pairwise-distinct user IDs
and the catalog movies enter the reconciler with empty play-state lists (the
spec's lifecycle: records are created empty by the Catalog Fetcher and
populated exclusively by the Reconciler), every movie returned by
`ReconcilePlayStatusWithAllMovies` carries exactly one play-state entry per
input user — `played = true` exactly when that user's seen-set contains the
movie's ID, otherwise `played = false`, and `playCount = 0`. -/
theorem C2_reconcile_exactly_one (allMovies : List Movie)
    (userSeenMovies : List (GoStr × List Movie)) (users : List User)
    (hU : (users.map User.id).Nodup)
    (hE : ∀ m ∈ allMovies, m.userPlayStatuses = []) :
    ∀ m ∈ ReconcilePlayStatusWithAllMovies allMovies userSeenMovies users,
      ∀ user ∈ users,
        (m.userPlayStatuses.filter fun st => decide (st.userID = user.id)) =
          [{ userID := user.id, userName := user.name,
             played := match lookupKey userSeenMovies user.id with
               | some seenMovies => decide (m.id ∈ seenMovies.map Movie.id)
               | none => false,
             playCount := 0 }] := by
  intro m hm user huser
  unfold ReconcilePlayStatusWithAllMovies at hm
  rw [foldl_markUser, List.map_map] at hm
  obtain ⟨kv, hkv, hsnd⟩ := List.mem_map.mp hm
  have hinv := movieFold_pres (fun kv => kv.1 = kv.2.id ∧ kv.2.userPlayStatuses = [])
    allMovies [] (fun m' hm' => ⟨rfl, hE m' hm'⟩) (fun kv h => absurd h (List.not_mem_nil kv))
    kv hkv
  have hm2 : m = { kv.2 with userPlayStatuses :=
      kv.2.userPlayStatuses ++ users.map fun u => statusFor userSeenMovies u kv.1 } :=
    hsnd.symm
  have hmid : m.id = kv.1 := by
    rw [hm2]
    show kv.2.id = kv.1
    exact hinv.1.symm
  have hups : m.userPlayStatuses = users.map fun u => statusFor userSeenMovies u kv.1 := by
    rw [hm2]
    show kv.2.userPlayStatuses ++ (users.map fun u => statusFor userSeenMovies u kv.1) = _
    rw [hinv.2, List.nil_append]
  rw [hups, filter_map_statusFor userSeenMovies kv.1 users hU user huser, ← hmid]
  unfold statusFor
  cases lookupKey userSeenMovies user.id <;> rfl

/-- Concrete instantiation of `C2_reconcile_exactly_one`: one movie, one
user whose seen-set contains the movie. -/
theorem C2_reconcile_exactly_one_witness :
    ((ReconcilePlayStatusWithAllMovies [⟨['m'], ['a'], ['p'], 0, []⟩]
        [(['u'], [⟨['m'], ['a'], ['p'], 0, []⟩])] [⟨['u'], ['n']⟩]).headD
      ⟨[], [], [], 0, []⟩).userPlayStatuses.filter
        (fun st => decide (st.userID = (⟨['u'], ['n']⟩ : User).id)) =
      [{ userID := ['u'], userName := ['n'],
         played := match lookupKey [(['u'], [⟨['m'], ['a'], ['p'], 0, []⟩])] ['u'] with
           | some seenMovies => decide (['m'] ∈ seenMovies.map Movie.id)
           | none => false,
         playCount := 0 }] := by
  have h := C2_reconcile_exactly_one [⟨['m'], ['a'], ['p'], 0, []⟩]
    [(['u'], [⟨['m'], ['a'], ['p'], 0, []⟩])] [⟨['u'], ['n']⟩] (by decide) (by decide)
    ((ReconcilePlayStatusWithAllMovies [⟨['m'], ['a'], ['p'], 0, []⟩]
        [(['u'], [⟨['m'], ['a'], ['p'], 0, []⟩])] [⟨['u'], ['n']⟩]).headD
      ⟨[], [], [], 0, []⟩) (by decide) ⟨['u'], ['n']⟩ (by decide)
  have hid : ((ReconcilePlayStatusWithAllMovies [⟨['m'], ['a'], ['p'], 0, []⟩]
        [(['u'], [⟨['m'], ['a'], ['p'], 0, []⟩])] [⟨['u'], ['n']⟩]).headD
      ⟨[], [], [], 0, []⟩).id = ['m'] := by decide
  rw [hid] at h
  exact h

/-- Claim C9.  `ReconcilePlayStatusWithAllMovies` returns exactly one record
per distinct movie ID of the input: output IDs are duplicate-free and cover
exactly the input IDs, the output length is the number of distinct input IDs
(not the input length), and each returned record is built from the **last**
input occurrence of its ID — earlier occurrences are silently collapsed
before play states are attached. -/
theorem C9_reconcile_dedup (allMovies : List Movie)
    (userSeenMovies : List (GoStr × List Movie)) (users : List User) :
    ((ReconcilePlayStatusWithAllMovies allMovies userSeenMovies users).map Movie.id).Nodup ∧
    (∀ i, i ∈ (ReconcilePlayStatusWithAllMovies allMovies userSeenMovies users).map Movie.id ↔
      i ∈ allMovies.map Movie.id) ∧
    (ReconcilePlayStatusWithAllMovies allMovies userSeenMovies users).length =
      (allMovies.map Movie.id).dedup.length ∧
    ∀ m' ∈ ReconcilePlayStatusWithAllMovies allMovies userSeenMovies users,
      ∃ m, allMovies.reverse.find? (fun mm => decide (mm.id = m'.id)) = some m ∧
        m' = { m with userPlayStatuses :=
            m.userPlayStatuses ++ users.map fun u => statusFor userSeenMovies u m.id } := by
  have hout : ReconcilePlayStatusWithAllMovies allMovies userSeenMovies users =
      (allMovies.foldl (fun mp movie => insertReplace mp movie.id movie) []).map
        fun kv => ({ kv.2 with userPlayStatuses :=
          kv.2.userPlayStatuses ++ users.map fun u => statusFor userSeenMovies u kv.1 } : Movie) := by
    unfold ReconcilePlayStatusWithAllMovies
    rw [foldl_markUser, List.map_map]
    rfl
  have hkeysnodup : ((allMovies.foldl (fun mp movie => insertReplace mp movie.id movie)
      []).map Prod.fst).Nodup := by
    apply movieFold_keys_nodup allMovies []
    rw [List.map_nil]
    exact List.nodup_nil
  have hkeysmem : ∀ i, i ∈ (allMovies.foldl (fun mp movie => insertReplace mp movie.id movie)
      []).map Prod.fst ↔ i ∈ allMovies.map Movie.id := by
    intro i
    rw [movieFold_keys_mem allMovies [] i, List.map_nil]
    constructor
    · rintro (h | h)
      · exact absurd h (List.not_mem_nil i)
      · exact h
    · exact Or.inr
  have hids : (ReconcilePlayStatusWithAllMovies allMovies userSeenMovies users).map Movie.id =
      (allMovies.foldl (fun mp movie => insertReplace mp movie.id movie) []).map Prod.fst := by
    rw [hout, List.map_map]
    apply List.map_congr_left
    intro kv hkv
    have hinv := movieFold_pres (fun kv => kv.1 = kv.2.id) allMovies [] (fun _ _ => rfl)
      (fun kv h => absurd h (List.not_mem_nil kv)) kv hkv
    show kv.2.id = kv.1
    exact hinv.symm
  refine ⟨?_, ?_, ?_, ?_⟩
  · rw [hids]
    exact hkeysnodup
  · intro i
    rw [hids]
    exact hkeysmem i
  · have h1 : (allMovies.foldl (fun mp movie => insertReplace mp movie.id movie) []).length =
        ((allMovies.foldl (fun mp movie => insertReplace mp movie.id movie) []).map
          Prod.fst).length := (List.length_map _ _).symm
    have h2 : ((allMovies.foldl (fun mp movie => insertReplace mp movie.id movie) []).map
        Prod.fst).toFinset = (allMovies.map Movie.id).toFinset := by
      ext i
      rw [List.mem_toFinset, List.mem_toFinset]
      exact hkeysmem i
    rw [hout, List.length_map, h1, ← List.toFinset_card_of_nodup hkeysnodup, h2,
      List.card_toFinset]
  · intro m' hm'
    rw [hout] at hm'
    obtain ⟨kv, hkv, hsnd⟩ := List.mem_map.mp hm'
    have hinv := movieFold_pres (fun kv => kv.1 = kv.2.id) allMovies [] (fun _ _ => rfl)
      (fun kv h => absurd h (List.not_mem_nil kv)) kv hkv
    have hm2 : m' = { kv.2 with userPlayStatuses :=
        kv.2.userPlayStatuses ++ users.map fun u => statusFor userSeenMovies u kv.1 } :=
      hsnd.symm
    have hmid : m'.id = kv.1 := by
      rw [hm2]
      show kv.2.id = kv.1
      exact hinv.symm
    refine ⟨kv.2, ?_, ?_⟩
    · have hpair : (kv.1, kv.2) ∈
          allMovies.foldl (fun mp movie => insertReplace mp movie.id movie) [] := by
        rw [Prod.mk.eta]
        exact hkv
      have hlk := mem_lookupKey_of_nodup _ hkeysnodup kv.1 kv.2 hpair
      have hmatch := movieFold_lookup allMovies [] kv.1
      rw [hlk] at hmatch
      cases hf : allMovies.reverse.find? (fun mm => decide (mm.id = kv.1)) with
      | none =>
          rw [hf] at hmatch
          exact absurd hmatch (by intro h; exact Option.noConfusion h)
      | some m0 =>
          rw [hf] at hmatch
          have h0 : kv.2 = m0 := by
            injection hmatch
          rw [hmid, hf, h0]
    · rw [hm2, hinv]

/-- Concrete instantiation of `C9_reconcile_dedup`: two input movies with
the same ID collapse to a single output record. -/
theorem C9_reconcile_dedup_witness :
    (ReconcilePlayStatusWithAllMovies
      [⟨['m'], ['a'], ['p'], 0, []⟩, ⟨['m'], ['b'], ['q'], 0, []⟩] [] []).length =
      (([⟨['m'], ['a'], ['p'], 0, []⟩, ⟨['m'], ['b'], ['q'], 0, []⟩] :
        List Movie).map Movie.id).dedup.length :=
  (C9_reconcile_dedup [⟨['m'], ['a'], ['p'], 0, []⟩, ⟨['m'], ['b'], ['q'], 0, []⟩] [] []).2.2.1

theorem mem_seenByMap (l : List UserPlayStatus) (u : GoStr) :
    u ∈ seenByMap l ↔ ∃ st ∈ l, st.userID = u ∧ st.played = true := by
  unfold seenByMap
  rw [List.mem_filterMap]
  constructor
  · rintro ⟨st, hst, hif⟩
    by_cases hp : st.played = true
    · rw [if_pos hp] at hif
      injection hif with hif
      exact ⟨st, hst, hif, hp⟩
    · rw [if_neg hp] at hif
      exact Option.noConfusion hif
  · rintro ⟨st, hst, hid, hp⟩
    refine ⟨st, hst, ?_⟩
    rw [if_pos hp, hid]

theorem same_key_eq : ∀ (l : List UserPlayStatus), (l.map UserPlayStatus.userID).Nodup →
    ∀ a, a ∈ l → ∀ b, b ∈ l → a.userID = b.userID → a = b := by
  intro l
  induction l with
  | nil =>
      intro _ a ha
      exact absurd ha (List.not_mem_nil a)
  | cons st0 l ih =>
      intro hn a ha b hb he
      simp only [List.map_cons, List.nodup_cons] at hn
      rcases List.mem_cons.mp ha with ha0 | ha
      · rcases List.mem_cons.mp hb with hb0 | hb
        · rw [ha0, hb0]
        · exfalso
          apply hn.1
          rw [ha0] at he
          rw [he]
          exact List.mem_map.mpr ⟨b, hb, rfl⟩
      · rcases List.mem_cons.mp hb with hb0 | hb
        · exfalso
          apply hn.1
          rw [hb0] at he
          rw [← he]
          exact List.mem_map.mpr ⟨a, ha, rfl⟩
        · exact ih hn.2 a ha b hb he

theorem seenByMap_of_findStatus (l : List UserPlayStatus)
    (hn : (l.map UserPlayStatus.userID).Nodup) (u : GoStr) (s : UserPlayStatus)
    (hf : findStatus l u = some s) : u ∈ seenByMap l ↔ s.played = true := by
  unfold findStatus at hf
  have hsmem : s ∈ l := List.mem_of_find?_eq_some hf
  have hsid : s.userID = u := by
    have hp := List.find?_some hf
    simp only [decide_eq_true_eq] at hp
    exact hp
  constructor
  · intro hu
    rw [mem_seenByMap] at hu
    obtain ⟨st, hst, hid, hp⟩ := hu
    have hst_eq : st = s := same_key_eq l hn st hst s hsmem (by rw [hid, hsid])
    rw [← hst_eq]
    exact hp
  · intro hp
    rw [mem_seenByMap]
    exact ⟨s, hsmem, hsid, hp⟩

theorem discFilter_nil (S : List GoStr) (mid mname u : GoStr) :
    ∀ (l : List UserPlayStatus), u ∉ l.map UserPlayStatus.userID →
      ((l.filterMap fun st =>
        if st.played ∧ st.userID ∉ S then
          some (PlayStatusDiscrepancy.mk st.userID st.userName mid mname)
        else none).filter fun d => decide (d.userID = u)) = []
  | [], _ => rfl
  | st0 :: l, h => by
      simp only [List.map_cons, List.mem_cons] at h
      push_neg at h
      by_cases hc : st0.played ∧ st0.userID ∉ S
      · rw [List.filterMap_cons_some (by rw [if_pos hc])]
        rw [List.filter_cons_of_neg (by
          simp only [decide_eq_true_eq]
          exact fun he => h.1 he.symm)]
        exact discFilter_nil S mid mname u l h.2
      · rw [List.filterMap_cons_none (by rw [if_neg hc])]
        exact discFilter_nil S mid mname u l h.2

theorem discFilter (S : List GoStr) (mid mname u : GoStr) :
    ∀ (l : List UserPlayStatus), (l.map UserPlayStatus.userID).Nodup →
      ((l.filterMap fun st =>
        if st.played ∧ st.userID ∉ S then
          some (PlayStatusDiscrepancy.mk st.userID st.userName mid mname)
        else none).filter fun d => decide (d.userID = u)) =
      (match l.find? fun st => decide (st.userID = u) with
       | some s => if s.played ∧ u ∉ S then [PlayStatusDiscrepancy.mk u s.userName mid mname]
                   else []
       | none => [])
  | [], _ => rfl
  | st0 :: l, hn => by
      simp only [List.map_cons, List.nodup_cons] at hn
      by_cases hk : st0.userID = u
      · rw [List.find?_cons_of_pos _ (by simp [hk])]
        show _ = if st0.played ∧ u ∉ S then
          [PlayStatusDiscrepancy.mk u st0.userName mid mname] else []
        have htail : u ∉ l.map UserPlayStatus.userID := by
          rw [← hk]
          exact hn.1
        by_cases hc : st0.played ∧ st0.userID ∉ S
        · rw [List.filterMap_cons_some (by rw [if_pos hc])]
          rw [List.filter_cons_of_pos (by simp [hk])]
          rw [discFilter_nil S mid mname u l htail]
          rw [if_pos (show st0.played ∧ u ∉ S from ⟨hc.1, hk ▸ hc.2⟩)]
          rw [hk]
        · rw [List.filterMap_cons_none (by rw [if_neg hc])]
          rw [discFilter_nil S mid mname u l htail]
          rw [if_neg (show ¬(st0.played ∧ u ∉ S) from fun hcc =>
            hc ⟨hcc.1, by rw [hk]; exact hcc.2⟩)]
      · rw [List.find?_cons_of_neg _ (by simp [hk])]
        by_cases hc : st0.played ∧ st0.userID ∉ S
        · rw [List.filterMap_cons_some (by rw [if_pos hc])]
          rw [List.filter_cons_of_neg (by
            simp only [decide_eq_true_eq]
            exact hk)]
          exact discFilter S mid mname u l hn.2
        · rw [List.filterMap_cons_none (by rw [if_neg hc])]
          exact discFilter S mid mname u l hn.2

/-- Claim C6.  For two movies whose play-state lists have exactly one entry
per user over the same user set, `GetPlayStatusDiscrepancies` emits, for
each user, exactly one record when the user's played flags differ — naming
the movie that user has **not** played as the one to update — and no record
when the flags agree; users outside the lists produce no records. -/
theorem C6_discrepancy_per_user (movie1 movie2 : Movie)
    (h1 : (movie1.userPlayStatuses.map UserPlayStatus.userID).Nodup)
    (h2 : (movie2.userPlayStatuses.map UserPlayStatus.userID).Nodup)
    (hsame : ∀ w, w ∈ movie1.userPlayStatuses.map UserPlayStatus.userID ↔
      w ∈ movie2.userPlayStatuses.map UserPlayStatus.userID) :
    (∀ u s1 s2, findStatus movie1.userPlayStatuses u = some s1 →
      findStatus movie2.userPlayStatuses u = some s2 →
      ((GetPlayStatusDiscrepancies movie1 movie2).filter fun d => decide (d.userID = u)) =
        (if s1.played = true ∧ s2.played = false then
          [PlayStatusDiscrepancy.mk u s1.userName movie2.id movie2.name]
        else if s2.played = true ∧ s1.played = false then
          [PlayStatusDiscrepancy.mk u s2.userName movie1.id movie1.name]
        else [])) ∧
    (∀ u, u ∉ movie1.userPlayStatuses.map UserPlayStatus.userID →
      ((GetPlayStatusDiscrepancies movie1 movie2).filter fun d => decide (d.userID = u)) = []) := by
  constructor
  · intro u s1 s2 hf1 hf2
    have mem1 := seenByMap_of_findStatus movie1.userPlayStatuses h1 u s1 hf1
    have mem2 := seenByMap_of_findStatus movie2.userPlayStatuses h2 u s2 hf2
    unfold findStatus at hf1 hf2
    unfold GetPlayStatusDiscrepancies
    rw [List.filter_append]
    rw [discFilter (seenByMap movie2.userPlayStatuses) movie2.id movie2.name u
      movie1.userPlayStatuses h1]
    rw [discFilter (seenByMap movie1.userPlayStatuses) movie1.id movie1.name u
      movie2.userPlayStatuses h2]
    rw [hf1, hf2]
    cases hp1 : s1.played <;> cases hp2 : s2.played <;>
      simp [hp1, hp2, mem1, mem2]
  · intro u hu1
    have hu2 : u ∉ movie2.userPlayStatuses.map UserPlayStatus.userID :=
      fun h => hu1 ((hsame u).mpr h)
    unfold GetPlayStatusDiscrepancies
    rw [List.filter_append]
    rw [discFilter_nil (seenByMap movie2.userPlayStatuses) movie2.id movie2.name u
      movie1.userPlayStatuses hu1]
    rw [discFilter_nil (seenByMap movie1.userPlayStatuses) movie1.id movie1.name u
      movie2.userPlayStatuses hu2]
    rfl

/-- Concrete instantiation of `C6_discrepancy_per_user`: one user who played
the first movie but not the second yields exactly one record naming the
second movie. -/
theorem C6_discrepancy_per_user_witness :
    ((GetPlayStatusDiscrepancies ⟨['1'], ['a'], ['p'], 0, [⟨['u'], ['n'], true, 0⟩]⟩
        ⟨['2'], ['b'], ['q'], 0, [⟨['u'], ['n'], false, 0⟩]⟩).filter
      fun d => decide (d.userID = ['u'])) =
      (if (⟨['u'], ['n'], true, 0⟩ : UserPlayStatus).played = true ∧
          (⟨['u'], ['n'], false, 0⟩ : UserPlayStatus).played = false then
        [PlayStatusDiscrepancy.mk ['u'] (⟨['u'], ['n'], true, 0⟩ : UserPlayStatus).userName
          ['2'] ['b']]
      else if (⟨['u'], ['n'], false, 0⟩ : UserPlayStatus).played = true ∧
          (⟨['u'], ['n'], true, 0⟩ : UserPlayStatus).played = false then
        [PlayStatusDiscrepancy.mk ['u'] (⟨['u'], ['n'], false, 0⟩ : UserPlayStatus).userName
          ['1'] ['a']]
      else []) :=
  (C6_discrepancy_per_user ⟨['1'], ['a'], ['p'], 0, [⟨['u'], ['n'], true, 0⟩]⟩
      ⟨['2'], ['b'], ['q'], 0, [⟨['u'], ['n'], false, 0⟩]⟩ (by decide) (by decide)
      (fun w => Iff.rfl)).1 ['u'] ⟨['u'], ['n'], true, 0⟩ ⟨['u'], ['n'], false, 0⟩
    (by decide) (by decide)
